import Mathlib

/-!
A verification development for the `ports-cli` session controller.

The TypeScript sources are shallowly embedded below:
* `src/utils/getPorts.ts` — the entity normalizer (`normalize` models the
  pure text-processing core of `getPorts`, as a function of the raw `lsof`
  stdout text);
* `src/utils/killPort.ts` — `killPort`, with the shell invocation of
  `kill -9` made observable as a list of issued termination calls and its
  success/failure modelled by an oracle;
* `src/utils/clampIndex.ts` — `clampIndex`;
* `src/components/PortList.tsx` — the visible-window computation
  (`viewportWindow`);
* `src/app.tsx` and `src/hooks/useKeyboardInput.ts` — the session state,
  the derived filtered view (`filterPorts`), and the keystroke dispatcher
  (`handleKey` / `stepKey`).

Raw text is modelled as `List Char` (`Str`); JavaScript numbers arising
here are integers and are modelled as `Int` (the sources only produce
integer values via `parseInt`, integer arithmetic and array lengths).
JavaScript `parseInt(s, 10)` is modelled faithfully by `jsParseInt`
(leading whitespace, optional sign, longest digit prefix, NaN as `none`).
`String.prototype.toLowerCase` is modelled on the ASCII range, which is
the range exercised by the embedded code paths.
-/

/-- Raw text: JavaScript strings modelled as lists of characters. -/
abbrev Str := List Char

/-- ASCII whitespace, the subset of JavaScript `\s` relevant here. -/
def isWs (c : Char) : Bool :=
  c == ' ' || c == '\t' || c == '\n' || c == '\r'

/-- Split a string at every character satisfying `p`, keeping empty pieces —
the behaviour of JavaScript `String.prototype.split` with a single-character
separator (and, after discarding empty pieces, of splitting on `/\s+/` for a
trimmed string). -/
def splitWhen (p : Char → Bool) : Str → List Str
  | [] => [[]]
  | c :: cs =>
    match splitWhen p cs with
    | [] => [[c]]
    | t :: ts => if p c then [] :: t :: ts else (c :: t) :: ts

/-- JavaScript `String.prototype.trim` (over ASCII whitespace). -/
def trimStr (s : Str) : Str :=
  ((s.dropWhile isWs).reverse.dropWhile isWs).reverse

/-- Whitespace-separated tokens of a line: `line.trim().split(/\s+/)` for a
trimmed line. -/
def fieldsOf (s : Str) : List Str :=
  (splitWhen isWs s).filter (fun t => !t.isEmpty)

/-- `hay` starts with `needle` (JavaScript `String.prototype.startsWith`). -/
def strBegins : Str → Str → Bool
  | _, [] => true
  | [], _ :: _ => false
  | c :: cs, d :: ds => c == d && strBegins cs ds

/-- `needle` occurs as a contiguous substring of `hay`
(JavaScript `String.prototype.includes`). -/
def strIncludes : Str → Str → Bool
  | [], n => n.isEmpty
  | c :: t, n => strBegins (c :: t) n || strIncludes t n

/-- ASCII lower-casing of one character, as `toLowerCase` acts on ASCII. -/
def lowerChar (c : Char) : Char :=
  if 'A' ≤ c ∧ c ≤ 'Z' then Char.ofNat (c.toNat + 32) else c

/-- ASCII lower-casing of a string. -/
def lowerStr (s : Str) : Str := s.map lowerChar

/-- The character of one decimal digit (only ever applied to values < 10). -/
def decDigit : Nat → Char
  | 0 => '0' | 1 => '1' | 2 => '2' | 3 => '3' | 4 => '4'
  | 5 => '5' | 6 => '6' | 7 => '7' | 8 => '8' | _ => '9'

/-- Decimal digits of a natural number, fuel-based so that it is structural
(kernel-reducible). With fuel ≥ n+1 this is the usual decimal expansion. -/
def natToStrAux : Nat → Nat → Str
  | 0, _ => []
  | f + 1, n =>
    if n < 10 then [decDigit n]
    else natToStrAux f (n / 10) ++ [decDigit (n % 10)]

/-- Decimal string of a natural number. -/
def natToStr (n : Nat) : Str := natToStrAux (n + 1) n

/-- Decimal string of an integer — JavaScript number-to-string interpolation
`${n}` for integer values. -/
def intToStr (n : Int) : Str :=
  if n < 0 then '-' :: natToStr n.natAbs else natToStr n.natAbs

/-- Value of a longest leading digit run: `none` when there is no leading
digit (JavaScript `NaN`). -/
def digitsVal (s : Str) : Option Nat :=
  let ds := s.takeWhile Char.isDigit
  if ds.isEmpty then none
  else some (ds.foldl (fun a c => 10 * a + (c.toNat - 48)) 0)

/-- JavaScript `parseInt(s, 10)`: skip leading whitespace, read an optional
sign, then the longest run of decimal digits; any trailing characters are
ignored; `none` models `NaN` (no digits at all). -/
def jsParseInt (s : Str) : Option Int :=
  match s.dropWhile isWs with
  | '-' :: r => (digitsVal r).map (fun n => -(n : Int))
  | '+' :: r => (digitsVal r).map (fun n => (n : Int))
  | r => (digitsVal r).map (fun n => (n : Int))

/-- `s` is exactly a (signed) base-10 integer numeral: an optional single
sign followed by one or more digits and nothing else. This is the plain
reading of a "numeric" pid string in the specification. -/
def isIntLiteral : Str → Bool
  | [] => false
  | '-' :: r => !r.isEmpty && r.all Char.isDigit
  | '+' :: r => !r.isEmpty && r.all Char.isDigit
  | s => s.all Char.isDigit

/-- Split a string at its **last** colon: `some (before, after)` when a colon
exists, `none` otherwise — the `lastIndexOf(':')` / `slice` pair in
`getPorts`, which must use the last colon so that bracketed IPv6 addresses
such as `[::1]:3000` split at the separator before the port. -/
def splitLastColon : Str → Option (Str × Str)
  | [] => none
  | c :: cs =>
    match splitLastColon cs with
    | some (a, b) => some (c :: a, b)
    | none => if c = ':' then some ([], cs) else none

/-! ## The entity data model (`src/types.ts`) -/

/-- One listening TCP port entry (`PortEntry` in `src/types.ts`). -/
structure PortEntry where
  port : Int
  process : Str
  pid : Str
  user : Str
  address : Str
deriving DecidableEq, Repr

/-! ## The entity normalizer (`src/utils/getPorts.ts`) -/

/-- Address normalization from `getPorts`: wildcard spellings collapse to
`0.0.0.0`, IPv6 loopback spellings to `127.0.0.1`; anything else passes
through. (In the source the two `if`s are sequential, but the first rewrite
`0.0.0.0` never matches the second test, so this is the same function.) -/
def normAddr (a : Str) : Str :=
  if a = "*".toList ∨ a = "0.0.0.0".toList ∨ a = "[::]".toList ∨ a = "::".toList then
    "0.0.0.0".toList
  else if a = "[::1]".toList ∨ a = "::1".toList then
    "127.0.0.1".toList
  else a

/-- One pass of the per-line parsing in `getPorts` (everything except the
dedup test): blank lines, lines with fewer than nine tokens, lines whose
ninth token has no colon, and lines whose port suffix has no parsable
integer are all skipped (`none`). -/
def parseLine (line : Str) : Option PortEntry :=
  let t := trimStr line
  if t.isEmpty then none
  else
    let parts := fieldsOf t
    if parts.length < 9 then none
    else
      match splitLastColon (parts.getD 8 []) with
      | none => none
      | some (rawAddr, portStr) =>
        match jsParseInt portStr with
        | none => none
        | some port =>
          some { port := port
                 process := parts.getD 0 []
                 pid := parts.getD 1 []
                 user := parts.getD 2 []
                 address := normAddr rawAddr }

/-- The dedup key string `` `${address}:${port}:${pid}` `` from `getPorts`. -/
def keyOf (e : PortEntry) : Str :=
  e.address ++ ':' :: intToStr e.port ++ ':' :: e.pid

/-- The parsing loop of `getPorts`: parse each line in order, skipping lines
whose dedup key was already seen. -/
def dedupLoop (seen : List Str) : List Str → List PortEntry
  | [] => []
  | l :: ls =>
    match parseLine l with
    | none => dedupLoop seen ls
    | some e =>
      if keyOf e ∈ seen then dedupLoop seen ls
      else e :: dedupLoop (keyOf e :: seen) ls

/-- Ordered insertion before the first strictly greater port. Inserting the
elements of a list left to right with this function is the unique stable
ascending-by-port sort, which is what ECMAScript `Array.prototype.sort`
with comparator `(a, b) => a.port - b.port` computes (the ECMAScript sort is
required to be stable). -/
def insertByPort (x : PortEntry) : List PortEntry → List PortEntry
  | [] => [x]
  | y :: ys => if x.port < y.port then x :: y :: ys else y :: insertByPort x ys

/-- Stable ascending sort by `port` — the final `ports.sort((a, b) =>
a.port - b.port)` of `getPorts`. -/
def sortPorts (l : List PortEntry) : List PortEntry :=
  l.foldl (fun acc x => insertByPort x acc) []

/-- The emitted (deduplicated, not yet sorted) entity list of `getPorts`:
trim the raw output, split into lines, drop the header row, then run the
parse/dedup loop. -/
def emitEntries (raw : Str) : List PortEntry :=
  dedupLoop [] (((splitWhen (fun c => c == '\n') (trimStr raw))).drop 1)

/-- The pure text-processing core of `getPorts`: the entity normalizer
`normalize(rawText)` of the specification. Total by construction — every
malformed line is skipped, never fatal. -/
def normalizePorts (raw : Str) : List PortEntry :=
  sortPorts (emitEntries raw)

/-! ## Process termination (`src/utils/killPort.ts`) -/

/-- The result of a kill attempt (`KillResult` in `killPort.ts`). -/
inductive KillResult where
  | ok : KillResult
  | err (msg : Str) : KillResult
deriving DecidableEq, Repr

/-- `killPort(pid)` from `src/utils/killPort.ts`. The `execSync` invocation
of `kill -9` is made observable: the second component lists the pid values
actually passed to the shell (empty when the guard rejects the pid before
touching the shell). The oracle `o` models the outcome of `execSync`:
`none` is a zero exit status, `some e` is a thrown error with message `e`
(the catch clause turns it into `{ success: false, error: e }`). -/
def killPort (o : Int → Option Str) (pid : Str) : KillResult × List Int :=
  match jsParseInt pid with
  | none => (.err "Invalid PID".toList, [])
  | some n =>
    if n ≤ 0 then (.err "Invalid PID".toList, [])
    else
      match o n with
      | none => (.ok, [n])
      | some e => (.err e, [n])

/-! ## Selection clamping (`src/utils/clampIndex.ts`) -/

/-- `clampIndex(index, maxIndex) = Math.min(Math.max(0, index),
Math.max(0, maxIndex))`. -/
def clampIndex (index maxIndex : Int) : Int :=
  min (max 0 index) (max 0 maxIndex)

/-! ## The visible window (`src/components/PortList.tsx`) -/

/-- The scrolling-viewport computation of `PortList`, as a function of the
filtered list length, the selected index and the row capacity
(`maxVisiblePorts`, which the source clamps to at least 1). Returns the
half-open window `(startIndex, endIndex)`. `cap / 2` is `Math.floor
(maxVisiblePorts / 2)` (the two agree for the nonnegative capacities the
source produces). -/
def viewportWindow (len sel cap : Int) : Int × Int :=
  if len > cap then
    let start := max 0 (sel - cap / 2)
    if start + cap > len then (max 0 (len - cap), len)
    else (start, start + cap)
  else (0, len)

/-! ## The filter engine (`src/app.tsx`, `filteredPorts`) -/

/-- The derived `filteredPorts` of `app.tsx` as a function of the master
list and the query: keep every entry when the query is empty (`!searchQuery`
short-circuits), otherwise keep entries where the lower-cased query occurs
in the lower-cased process name, port string (`String(p.port)`), or
address. -/
def filterPorts (ports : List PortEntry) (searchQuery : Str) : List PortEntry :=
  ports.filter (fun p =>
    searchQuery.isEmpty ||
      [p.process, intToStr p.port, p.address].any
        (fun v => strIncludes (lowerStr v) (lowerStr searchQuery)))

/-- The filter predicate in the specification's own words (§4.2): the
lower-cased query is a substring of the lower-cased process name, OR of the
decimal string form of the port, OR of the address string (matching being
case-insensitive). Written independently of `filterPorts` for the
refinement proof. -/
def specMatches (query : Str) (p : PortEntry) : Bool :=
  strIncludes (lowerStr p.process) (lowerStr query) ||
  strIncludes (intToStr p.port) (lowerStr query) ||
  strIncludes (lowerStr p.address) (lowerStr query)

/-! ## Session state (`src/app.tsx`) -/

/-- The two interaction modes (`AppMode` in `src/types.ts`). -/
inductive AppMode where
  | navigate : AppMode
  | search : AppMode
deriving DecidableEq, Repr

/-- Transient kill feedback (`KillMessage` in `src/types.ts`). -/
inductive MsgKind where
  | success : MsgKind
  | error : MsgKind
deriving DecidableEq, Repr

/-- Transient kill feedback (`KillMessage` in `src/types.ts`). -/
structure KillMessage where
  type : MsgKind
  text : Str
deriving DecidableEq, Repr

/-- The session state owned by `App` in `src/app.tsx`: the master port
list, the persisted selection index, the query, the transient feedback, the
mode and the overlay/confirmation flags. `pendingKillRefresh` records
whether the (at most one) post-kill refresh timer is scheduled, and
`exited` whether the session was ended. -/
structure SessionState where
  ports : List PortEntry
  selectedIndex : Int
  searchQuery : Str
  killMessage : Option KillMessage
  mode : AppMode
  showHelp : Bool
  confirmKill : Bool
  pendingKillRefresh : Bool
  exited : Bool
deriving DecidableEq, Repr

/-- Length of the derived filtered list. -/
def flen (s : SessionState) : Int :=
  ((filterPorts s.ports s.searchQuery).length : Int)

/-- The derived `clampedIndex` of `app.tsx`: the persisted index clamped
against the current filtered length. -/
def clampedIndex (s : SessionState) : Int :=
  clampIndex s.selectedIndex (flen s - 1)

/-- The derived `selectedPort` of `app.tsx`: the filtered entry at the
clamped index, or `none` when the filtered list is empty. -/
def selectedPort (s : SessionState) : Option PortEntry :=
  (filterPorts s.ports s.searchQuery).get? (clampedIndex s).toNat

/-- `moveUp` in `app.tsx`. -/
def moveUp (s : SessionState) : SessionState :=
  { s with selectedIndex := clampIndex (s.selectedIndex - 1) (flen s - 1) }

/-- `moveDown` in `app.tsx`. -/
def moveDown (s : SessionState) : SessionState :=
  { s with selectedIndex := clampIndex (s.selectedIndex + 1) (flen s - 1) }

/-- The feedback text `Killed {name} ({pid})` / `Failed: {reason}` built by
`executeKill` from the `killPort` result. -/
def killMsgOf (o : Int → Option Str) (p : PortEntry) : KillMessage :=
  match (killPort o p.pid).1 with
  | .ok => ⟨.success, "Killed ".toList ++ p.process ++ " (".toList ++ p.pid ++ ")".toList⟩
  | .err e => ⟨.error, "Failed: ".toList ++ e⟩

/-- `executeKill` in `app.tsx`: a no-op when no entry is selected;
otherwise invoke `killPort` on the selected pid, record the feedback
message, cancel any pending post-kill refresh timer and schedule a fresh
one. The second component lists the termination calls issued to the
shell. -/
def executeKill (o : Int → Option Str) (s : SessionState) : SessionState × List Int :=
  match selectedPort s with
  | none => (s, [])
  | some p =>
    ({ s with killMessage := some (killMsgOf o p), pendingKillRefresh := true },
     (killPort o p.pid).2)

/-! ## The input dispatcher (`src/hooks/useKeyboardInput.ts`) -/

/-- A raw keystroke event as delivered by the terminal layer: the literal
input string plus the modifier/special-key flags consulted by the
dispatcher (`key.delete` is modelled as `del`, `key.return` as `ret`). -/
structure Key where
  input : Str
  ctrl : Bool
  meta : Bool
  escape : Bool
  ret : Bool
  upArrow : Bool
  downArrow : Bool
  backspace : Bool
  del : Bool
deriving DecidableEq, Repr

/-- The priority-ordered keystroke dispatcher of `useKeyboardInput`:
global chords, then help toggle, then the help-overlay catch-all, then the
kill-confirmation dialog, then navigate-mode bindings, then search-mode
bindings. `fetched` is the list a manual refresh (`r`/`R`) would obtain
from the inspector. Returns the updated state and the termination calls
issued while handling the keystroke. -/
def handleKey (o : Int → Option Str) (fetched : List PortEntry)
    (s : SessionState) (k : Key) : SessionState × List Int :=
  if k.ctrl = true ∧ k.input = ['c'] then ({ s with exited := true }, [])
  else if k.ctrl = true ∧ k.input = ['k'] then executeKill o s
  else if k.input = ['?'] ∧ s.mode = AppMode.navigate ∧ s.confirmKill = false then
    ({ s with showHelp := !s.showHelp }, [])
  else if s.showHelp = true then ({ s with showHelp := false }, [])
  else if s.confirmKill = true then
    if k.input = ['y'] then
      (({ (executeKill o s).1 with confirmKill := false }), (executeKill o s).2)
    else if k.escape = true ∨ k.input = ['n'] then ({ s with confirmKill := false }, [])
    else (s, [])
  else if s.mode = AppMode.navigate then
    if k.upArrow = true ∨ k.input = ['k'] then (moveUp s, [])
    else if k.downArrow = true ∨ k.input = ['j'] then (moveDown s, [])
    else if k.input = ['/'] then ({ s with mode := AppMode.search }, [])
    else if k.ret = true then
      (if (selectedPort s).isSome then { s with confirmKill := true } else s, [])
    else if k.input = ['r'] ∨ k.input = ['R'] then ({ s with ports := fetched }, [])
    else if k.escape = true then
      (if s.searchQuery ≠ [] then { s with searchQuery := [] } else s, [])
    else if k.input = ['q'] then ({ s with exited := true }, [])
    else (s, [])
  else
    if k.escape = true then ({ s with searchQuery := [], mode := AppMode.navigate }, [])
    else if k.backspace = true ∨ k.del = true then
      ({ s with searchQuery := s.searchQuery.dropLast }, [])
    else if k.upArrow = true then (moveUp s, [])
    else if k.downArrow = true then (moveDown s, [])
    else if k.ret = true then ({ s with mode := AppMode.navigate }, [])
    else if k.ctrl = true ∨ k.meta = true then (s, [])
    else if k.input ≠ [] then ({ s with searchQuery := s.searchQuery ++ k.input }, [])
    else (s, [])

/-- The reactive re-derivation step of `app.tsx` (the `useEffect` that
re-synchronizes `selectedIndex` with `clampedIndex` after every state
change); `clampIndex` is idempotent, so one application reaches the fixed
point React converges to. -/
def normalizeState (s : SessionState) : SessionState :=
  { s with selectedIndex := clampedIndex s }

/-- One keystroke-driven transition of the session: dispatch the key, then
re-derive the clamped selection. -/
def stepKey (o : Int → Option Str) (fetched : List PortEntry)
    (s : SessionState) (k : Key) : SessionState × List Int :=
  (normalizeState (handleKey o fetched s k).1, (handleKey o fetched s k).2)

/-- A refresh tick (the 2-second poll or a manual refresh): replace the
master list wholesale, then re-derive the clamped selection. -/
def stepRefresh (fetched : List PortEntry) (s : SessionState) : SessionState :=
  normalizeState { s with ports := fetched }

/-- The post-kill one-shot refresh timer firing. -/
def stepKillRefresh (fetched : List PortEntry) (s : SessionState) : SessionState :=
  normalizeState { s with ports := fetched, pendingKillRefresh := false }

/-- The feedback-expiry timer firing: clear the kill message. -/
def stepMsgTimeout (s : SessionState) : SessionState :=
  { s with killMessage := none }

/-- The session's initial state: navigate mode, empty query, no overlay, no
confirmation pending, selection at 0, master list from the first
inspection. -/
def initState (fetched : List PortEntry) : SessionState :=
  normalizeState
    { ports := fetched, selectedIndex := 0, searchQuery := [], killMessage := none
      mode := AppMode.navigate, showHelp := false, confirmKill := false
      pendingKillRefresh := false, exited := false }

/-- The session states reachable from some initial state by keystrokes and
refresh/timer events (with arbitrary oracle outcomes and inspector
snapshots). -/
inductive Reachable : SessionState → Prop where
  | init (fetched : List PortEntry) : Reachable (initState fetched)
  | key {s} (h : Reachable s) (o : Int → Option Str) (fetched : List PortEntry)
      (k : Key) : Reachable (stepKey o fetched s k).1
  | refresh {s} (h : Reachable s) (fetched : List PortEntry) :
      Reachable (stepRefresh fetched s)
  | killRefresh {s} (h : Reachable s) (fetched : List PortEntry) :
      Reachable (stepKillRefresh fetched s)
  | msgTimeout {s} (h : Reachable s) : Reachable (stepMsgTimeout s)

/-! ## Helper lemmas: the stable sort -/

/-- Ascending-by-port, as a pairwise relation. -/
def PSorted (l : List PortEntry) : Prop :=
  l.Pairwise (fun a b => a.port ≤ b.port)

theorem perm_insertByPort (x : PortEntry) (l : List PortEntry) :
    List.Perm (insertByPort x l) (x :: l) := by
  induction l with
  | nil => simp [insertByPort]
  | cons y ys ih =>
    simp only [insertByPort]
    split
    · exact List.Perm.refl _
    · exact (ih.cons y).trans (List.Perm.swap x y ys)

theorem mem_insertByPort {a x : PortEntry} {l : List PortEntry} :
    a ∈ insertByPort x l ↔ a = x ∨ a ∈ l := by
  rw [(perm_insertByPort x l).mem_iff]
  simp

theorem pairwise_insertByPort (x : PortEntry) {l : List PortEntry}
    (h : PSorted l) : PSorted (insertByPort x l) := by
  induction l with
  | nil => simp [insertByPort, PSorted]
  | cons y ys ih =>
    rcases (List.pairwise_cons.mp h) with ⟨hy, hys⟩
    simp only [insertByPort]
    split
    · rename_i hlt
      refine List.Pairwise.cons ?_ h
      intro z hz
      rcases List.mem_cons.mp hz with rfl | hz
      · exact le_of_lt hlt
      · exact (le_of_lt hlt).trans (hy z hz)
    · rename_i hge
      refine List.Pairwise.cons ?_ (ih hys)
      intro z hz
      rcases mem_insertByPort.mp hz with rfl | hz
      · exact le_of_not_lt hge
      · exact hy z hz

theorem filter_insertByPort_eq (x : PortEntry) {l : List PortEntry}
    (h : PSorted l) :
    (insertByPort x l).filter (fun y => y.port == x.port) =
      l.filter (fun y => y.port == x.port) ++ [x] := by
  induction l with
  | nil => simp [insertByPort]
  | cons y ys ih =>
    rcases (List.pairwise_cons.mp h) with ⟨hy, hys⟩
    simp only [insertByPort]
    split
    · rename_i hlt
      have hnil : (y :: ys).filter (fun z => z.port == x.port) = [] := by
        rw [List.filter_eq_nil_iff]
        intro z hz
        rcases List.mem_cons.mp hz with rfl | hz
        · simp only [beq_iff_eq]; exact fun hc => absurd hc.symm (ne_of_lt hlt)
        · simp only [beq_iff_eq]
          exact fun hc => absurd hc.symm (ne_of_lt (lt_of_lt_of_le hlt (hy z hz)))
      rw [hnil, List.filter_cons_of_pos (by simp), hnil]
      rfl
    · by_cases hyx : y.port = x.port
      · rw [List.filter_cons_of_pos (by simp [hyx]),
            List.filter_cons_of_pos (by simp [hyx]), ih hys]
        rfl
      · rw [List.filter_cons_of_neg (by simp [hyx]),
            List.filter_cons_of_neg (by simp [hyx]), ih hys]

theorem filter_insertByPort_ne (x : PortEntry) (l : List PortEntry) {p : Int}
    (hne : x.port ≠ p) :
    (insertByPort x l).filter (fun y => y.port == p) =
      l.filter (fun y => y.port == p) := by
  induction l with
  | nil => simp [insertByPort, hne]
  | cons y ys ih =>
    simp only [insertByPort]
    split
    · rw [List.filter_cons_of_neg (by simp [hne])]
    · by_cases hyp : y.port = p
      · rw [List.filter_cons_of_pos (by simp [hyp]),
            List.filter_cons_of_pos (by simp [hyp]), ih]
      · rw [List.filter_cons_of_neg (by simp [hyp]),
            List.filter_cons_of_neg (by simp [hyp]), ih]

/-- The left-to-right insertion fold underlying `sortPorts`. -/
theorem sortPorts_eq_foldl (l : List PortEntry) :
    sortPorts l = l.foldl (fun acc x => insertByPort x acc) [] := rfl

theorem foldl_insert_pairwise :
    ∀ (l acc : List PortEntry), PSorted acc →
      PSorted (l.foldl (fun acc x => insertByPort x acc) acc)
  | [], _, h => h
  | x :: l, acc, h =>
    foldl_insert_pairwise l (insertByPort x acc) (pairwise_insertByPort x h)

theorem foldl_insert_perm :
    ∀ (l acc : List PortEntry),
      List.Perm (l.foldl (fun acc x => insertByPort x acc) acc) (acc ++ l) := by
  intro l
  induction l with
  | nil => intro acc; simp
  | cons x l ih =>
    intro acc
    have h1 := ih (insertByPort x acc)
    have h2 : List.Perm (insertByPort x acc ++ l) (acc ++ x :: l) := by
      refine ((perm_insertByPort x acc).append_right l).trans ?_
      exact List.perm_middle.symm
    exact h1.trans h2

theorem foldl_insert_filter (p : Int) :
    ∀ (l acc : List PortEntry), PSorted acc →
      (l.foldl (fun acc x => insertByPort x acc) acc).filter (fun y => y.port == p) =
        acc.filter (fun y => y.port == p) ++ l.filter (fun y => y.port == p) := by
  intro l
  induction l with
  | nil => intro acc _; simp
  | cons x l ih =>
    intro acc hacc
    rw [List.foldl_cons, ih (insertByPort x acc) (pairwise_insertByPort x hacc)]
    by_cases hx : x.port = p
    · subst hx
      rw [filter_insertByPort_eq x hacc, List.filter_cons_of_pos (by simp)]
      simp
    · rw [filter_insertByPort_ne x acc hx, List.filter_cons_of_neg (by simp [hx])]

theorem sortPorts_pairwise (l : List PortEntry) : PSorted (sortPorts l) :=
  foldl_insert_pairwise l [] (List.Pairwise.nil)

theorem sortPorts_perm (l : List PortEntry) : List.Perm (sortPorts l) l :=
  (foldl_insert_perm l []).trans (by simp)

theorem sortPorts_filter (l : List PortEntry) (p : Int) :
    (sortPorts l).filter (fun y => y.port == p) = l.filter (fun y => y.port == p) := by
  have := foldl_insert_filter p l [] (List.Pairwise.nil)
  simpa [sortPorts] using this

/-! ## Helper lemmas: the dedup loop -/

theorem dedupLoop_distinct :
    ∀ (ls : List Str) (seen : List Str),
      (∀ e ∈ dedupLoop seen ls, keyOf e ∉ seen) ∧
        (dedupLoop seen ls).Pairwise (fun a b => keyOf a ≠ keyOf b) := by
  intro ls
  induction ls with
  | nil => intro seen; simp [dedupLoop]
  | cons l ls ih =>
    intro seen
    simp only [dedupLoop]
    match hp : parseLine l with
    | none => exact ih seen
    | some e =>
      simp only []
      by_cases hk : keyOf e ∈ seen
      · simp only [if_pos hk]
        exact ih seen
      · simp only [if_neg hk]
        rcases ih (keyOf e :: seen) with ⟨hnotin, hpw⟩
        refine ⟨?_, ?_⟩
        · intro e' he'
          rcases List.mem_cons.mp he' with rfl | he'
          · exact hk
          · intro hc
            exact hnotin e' he' (List.mem_cons_of_mem _ hc)
        · refine List.Pairwise.cons ?_ hpw
          intro e' he' hc
          exact hnotin e' he' (by rw [← hc]; exact List.mem_cons_self _ _)

/-- The dedup key is a function of the triple (address, port, pid): equal
triples give equal key strings. -/
theorem keyOf_congr {a b : PortEntry} (h1 : a.address = b.address)
    (h2 : a.port = b.port) (h3 : a.pid = b.pid) : keyOf a = keyOf b := by
  simp [keyOf, h1, h2, h3]

/-! ## Claim C4 -/

/-- C4: for every raw text input the entity normalizer — total by
construction, so it never raises — returns a list sorted ascending by
numeric port value, and the sort is stable for entries with equal ports:
entries with any given port appear in exactly the order the dedup pass
emitted them. -/
theorem normalizePorts_sorted_stable (raw : Str) :
    PSorted (normalizePorts raw) ∧
      ∀ p : Int, (normalizePorts raw).filter (fun e => e.port == p) =
        (emitEntries raw).filter (fun e => e.port == p) :=
  ⟨sortPorts_pairwise _, fun p => sortPorts_filter _ p⟩

/-! ## Claim C5 -/

/-- The two-line wildcard-spelling scenario: `0.0.0.0:3000` and `[::]:3000`
for the same pid. -/
def wildcardRaw : Str :=
  ("COMMAND PID USER FD TYPE DEVICE SIZE/OFF NODE NAME\n" ++
   "node 100 alice 20u IPv4 0x1 0t0 TCP 0.0.0.0:3000 (LISTEN)\n" ++
   "node 100 alice 20u IPv6 0x2 0t0 TCP [::]:3000 (LISTEN)").toList

set_option maxRecDepth 100000 in
/-- C5: for every raw text input the triple (address, port, pid) is unique
across the normalizer's output — no two distinct returned entities agree on
all three — and in particular the two-line wildcard-spelling input yields
exactly one entity. -/
theorem normalizePorts_dedup_key_unique :
    (∀ raw : Str, (normalizePorts raw).Pairwise
        (fun a b => ¬(a.address = b.address ∧ a.port = b.port ∧ a.pid = b.pid))) ∧
      (normalizePorts wildcardRaw).length = 1 := by
  constructor
  · intro raw
    have hsym : ∀ {a b : PortEntry},
        ¬(a.address = b.address ∧ a.port = b.port ∧ a.pid = b.pid) →
          ¬(b.address = a.address ∧ b.port = a.port ∧ b.pid = a.pid) :=
      fun h hc => h ⟨hc.1.symm, hc.2.1.symm, hc.2.2.symm⟩
    unfold normalizePorts
    rw [(sortPorts_perm (emitEntries raw)).pairwise_iff hsym]
    unfold emitEntries
    exact ((dedupLoop_distinct _ []).2).imp
      (fun hne hc => hne (keyOf_congr hc.1 hc.2.1 hc.2.2))
  · decide

/-! ## Claim C9 -/

/-- A raw input whose single data line carries the out-of-range port
`99999`. -/
def c9raw : Str :=
  ("COMMAND PID USER FD TYPE DEVICE SIZE/OFF NODE NAME\n" ++
   "node 7 alice 20u IPv4 0x1 0t0 TCP 1.2.3.4:99999").toList

set_option maxRecDepth 100000 in
/-- C9 counterexample: the normalizer performs no range check on the parsed
port, so a line whose suffix parses to `99999` is emitted with port
`99999`, outside 1–65535 — the claimed invariant `1 ≤ port ≤ 65535` fails
on this concrete raw input. -/
theorem normalizePorts_port_range_cx :
    (normalizePorts c9raw).map (fun e => e.port) = [(99999 : Int)] ∧
      ¬((1 : Int) ≤ 99999 ∧ (99999 : Int) ≤ 65535) := by
  exact ⟨by decide, by decide⟩

/-- C9 (amended): every entity the per-line parser emits carries exactly
the base-10 `parseInt` value of the suffix after the last colon of the
line's ninth token — with `parseInt`'s longest-digit-prefix semantics, and
with no 1–65535 range check — and a line whose suffix does not parse at
all (no leading digit) is skipped. -/
theorem parseLine_port_parse (line : Str) :
    (∀ a pstr, splitLastColon ((fieldsOf (trimStr line)).getD 8 []) = some (a, pstr) →
      jsParseInt pstr = none → parseLine line = none) ∧
    (∀ e, parseLine line = some e →
      ∃ a pstr, splitLastColon ((fieldsOf (trimStr line)).getD 8 []) = some (a, pstr) ∧
        jsParseInt pstr = some e.port) := by
  constructor
  · intro a pstr hsplit hparse
    simp only [parseLine]
    split
    · rfl
    · split
      · rfl
      · rw [hsplit]
        simp [hparse]
  · intro e he
    simp only [parseLine] at he
    split at he
    · exact absurd he (by simp)
    · split at he
      · exact absurd he (by simp)
      · split at he
        · exact absurd he (by simp)
        · rename_i a pstr hs
          split at he
          · exact absurd he (by simp)
          · rename_i port hj
            refine ⟨a, pstr, hs, ?_⟩
            injection he with h
            rw [← h]
            exact hj

/-- The two concrete lines exercising both directions of
`parseLine_port_parse`: a parsable out-of-range suffix and an unparsable
one. -/
def c9goodLine : Str := "node 7 alice 20u IPv4 0x1 0t0 TCP 1.2.3.4:99999".toList

/-- See `c9goodLine`. -/
def c9badLine : Str := "node 7 alice 20u IPv4 0x1 0t0 TCP 1.2.3.4:xx".toList

set_option maxRecDepth 100000 in
/-- Witness for `parseLine_port_parse` at two concrete lines: the suffix
`xx` does not parse and the line is skipped; the suffix `99999` parses and
the emitted entity carries port 99999. -/
theorem parseLine_port_parse_witness :
    (splitLastColon ((fieldsOf (trimStr c9badLine)).getD 8 []) =
        some ("1.2.3.4".toList, "xx".toList) ∧
      jsParseInt "xx".toList = none ∧
      parseLine c9badLine = none) ∧
    (parseLine c9goodLine =
        some ⟨99999, "node".toList, "7".toList, "alice".toList, "1.2.3.4".toList⟩ ∧
      ∃ a pstr, splitLastColon ((fieldsOf (trimStr c9goodLine)).getD 8 []) =
          some (a, pstr) ∧ jsParseInt pstr = some (99999 : Int)) :=
  ⟨⟨by decide, by decide,
    (parseLine_port_parse c9badLine).1 ("1.2.3.4".toList) ("xx".toList)
      (by decide) (by decide)⟩,
   ⟨by decide,
    (parseLine_port_parse c9goodLine).2
      ⟨99999, "node".toList, "7".toList, "alice".toList, "1.2.3.4".toList⟩ (by decide)⟩⟩

/-! ## Claim C1 -/

/-- C1 counterexample: `parseInt` keeps the longest digit prefix, so the
non-numeric pid string `"12abc"` is *not* rejected — the guard sees the
value 12, and the termination call is issued for pid 12 (and, with a
succeeding shell, the result is success, not the "Invalid PID" failure the
claim requires for every non-numeric pid string). -/
theorem killPort_numeric_prefix_cx :
    isIntLiteral "12abc".toList = false ∧
      killPort (fun _ => none) "12abc".toList = (KillResult.ok, [12]) :=
  ⟨by decide, by decide⟩

/-- C1 (amended): for every pid string whose base-10 `parseInt` value is
NaN (no leading integer at all) or is ≤ 0 — which covers every strictly
non-numeric, zero, or negative pid string, but not strings with a positive
numeric prefix such as `"12abc"` — `killPort` returns the "Invalid PID"
failure and never issues the termination call. -/
theorem killPort_invalid_pid (o : Int → Option Str) (pid : Str)
    (h : jsParseInt pid = none ∨ ∃ n, jsParseInt pid = some n ∧ n ≤ 0) :
    killPort o pid = (KillResult.err "Invalid PID".toList, []) := by
  rcases h with h | ⟨n, hn, hle⟩
  · simp [killPort, h]
  · simp [killPort, hn, hle]

/-- Witness for `killPort_invalid_pid` at the spec's own scenario, the pid
string `"-5"`. -/
theorem killPort_invalid_pid_witness :
    (jsParseInt "-5".toList = some (-5) ∧ (-5 : Int) ≤ 0) ∧
      killPort (fun _ => none) "-5".toList = (KillResult.err "Invalid PID".toList, []) :=
  ⟨⟨by decide, by decide⟩,
   killPort_invalid_pid (fun _ => none) "-5".toList (Or.inr ⟨-5, by decide, by decide⟩)⟩

/-! ## Claim C6 -/

theorem lowerChar_decDigit (n : Nat) : lowerChar (decDigit n) = decDigit n := by
  rcases n with _ | _ | _ | _ | _ | _ | _ | _ | _ | n <;> rfl

theorem lowerStr_natToStrAux (f : Nat) :
    ∀ n : Nat, lowerStr (natToStrAux f n) = natToStrAux f n := by
  induction f with
  | zero => intro n; rfl
  | succ f ih =>
    intro n
    unfold natToStrAux
    split
    · simp [lowerStr, lowerChar_decDigit]
    · have := ih (n / 10)
      simp only [lowerStr, List.map_append, List.map_cons, List.map_nil,
        lowerChar_decDigit] at *
      rw [this]

theorem lowerStr_intToStr (n : Int) : lowerStr (intToStr n) = intToStr n := by
  unfold intToStr natToStr
  split
  · simp only [lowerStr, List.map_cons]
    rw [show lowerChar '-' = '-' from by decide]
    have := lowerStr_natToStrAux (n.natAbs + 1) n.natAbs
    simp only [lowerStr] at this
    rw [this]
  · exact lowerStr_natToStrAux _ _

/-- C6: the derived filter of `app.tsx` coincides with the specification's
filter contract: the empty query returns the entities unchanged (same
elements, same ordering), and a non-empty query returns exactly the
subsequence (a `List.filter`) of entities matched by `specMatches` — the
lower-cased query occurring in the lower-cased process name, OR in the
decimal string form of the port, OR in the (lower-cased, matching being
case-insensitive) address string. -/
theorem filterPorts_matches_spec (es : List PortEntry) (q : Str) :
    filterPorts es q = if q = [] then es else es.filter (specMatches q) := by
  by_cases hq : q = []
  · subst hq
    simp [filterPorts]
  · rw [if_neg hq]
    unfold filterPorts
    refine List.filter_congr ?_
    intro p _
    have hq' : q.isEmpty = false := by
      cases q with
      | nil => exact absurd rfl hq
      | cons c cs => rfl
    rw [hq']
    simp [specMatches, List.any_cons, List.any_nil, lowerStr_intToStr, Bool.or_assoc]

/-! ## Claim C8 -/

/-- C8: whenever the filtered list is non-empty and `selectedIndex` is a
valid index into it (the data-model invariant: the session always re-clamps
`selectedIndex` into range), the visible window computed by the viewport
model contains `selectedIndex`, for every capacity ≥ 1. -/
theorem viewport_contains_selection (len sel cap : Int) (hcap : 1 ≤ cap)
    (hlen : 0 < len) (hsel0 : 0 ≤ sel) (hsel : sel < len) :
    (viewportWindow len sel cap).1 ≤ sel ∧ sel < (viewportWindow len sel cap).2 := by
  simp only [viewportWindow]
  split_ifs with h1 h2 <;> constructor <;> simp only [] <;> omega

/-- Witness for `viewport_contains_selection`: a list of 10, selection at
7, capacity 3 — the window is `[6, 9)` and contains 7. -/
theorem viewport_contains_selection_witness :
    ((1 : Int) ≤ 3 ∧ (0 : Int) < 10 ∧ (0 : Int) ≤ 7 ∧ (7 : Int) < 10) ∧
      ((viewportWindow 10 7 3).1 ≤ 7 ∧ (7 : Int) < (viewportWindow 10 7 3).2) :=
  ⟨⟨by decide, by decide, by decide, by decide⟩,
   viewport_contains_selection 10 7 3 (by decide) (by decide) (by decide) (by decide)⟩

/-! ## Helper lemmas: the session machine -/

theorem clampIndex_idem (i m : Int) :
    clampIndex (clampIndex i m) m = clampIndex i m := by
  unfold clampIndex
  omega

@[simp] theorem normalizeState_ports (s : SessionState) :
    (normalizeState s).ports = s.ports := rfl

@[simp] theorem normalizeState_searchQuery (s : SessionState) :
    (normalizeState s).searchQuery = s.searchQuery := rfl

@[simp] theorem normalizeState_killMessage (s : SessionState) :
    (normalizeState s).killMessage = s.killMessage := rfl

@[simp] theorem normalizeState_mode (s : SessionState) :
    (normalizeState s).mode = s.mode := rfl

@[simp] theorem normalizeState_showHelp (s : SessionState) :
    (normalizeState s).showHelp = s.showHelp := rfl

@[simp] theorem normalizeState_confirmKill (s : SessionState) :
    (normalizeState s).confirmKill = s.confirmKill := rfl

@[simp] theorem normalizeState_pendingKillRefresh (s : SessionState) :
    (normalizeState s).pendingKillRefresh = s.pendingKillRefresh := rfl

@[simp] theorem normalizeState_exited (s : SessionState) :
    (normalizeState s).exited = s.exited := rfl

@[simp] theorem normalizeState_selectedIndex (s : SessionState) :
    (normalizeState s).selectedIndex = clampedIndex s := rfl

theorem normalizeState_eq_self {s : SessionState}
    (h : s.selectedIndex = clampedIndex s) : normalizeState s = s := by
  unfold normalizeState
  rw [← h]

@[simp] theorem executeKill_confirmKill (o : Int → Option Str) (s : SessionState) :
    (executeKill o s).1.confirmKill = s.confirmKill := by
  rcases hsp : selectedPort s with _ | p <;> simp [executeKill, hsp]

@[simp] theorem executeKill_showHelp (o : Int → Option Str) (s : SessionState) :
    (executeKill o s).1.showHelp = s.showHelp := by
  rcases hsp : selectedPort s with _ | p <;> simp [executeKill, hsp]

@[simp] theorem executeKill_ports (o : Int → Option Str) (s : SessionState) :
    (executeKill o s).1.ports = s.ports := by
  rcases hsp : selectedPort s with _ | p <;> simp [executeKill, hsp]

@[simp] theorem executeKill_searchQuery (o : Int → Option Str) (s : SessionState) :
    (executeKill o s).1.searchQuery = s.searchQuery := by
  rcases hsp : selectedPort s with _ | p <;> simp [executeKill, hsp]

@[simp] theorem executeKill_selectedIndex (o : Int → Option Str) (s : SessionState) :
    (executeKill o s).1.selectedIndex = s.selectedIndex := by
  rcases hsp : selectedPort s with _ | p <;> simp [executeKill, hsp]

@[simp] theorem executeKill_mode (o : Int → Option Str) (s : SessionState) :
    (executeKill o s).1.mode = s.mode := by
  rcases hsp : selectedPort s with _ | p <;> simp [executeKill, hsp]

@[simp] theorem executeKill_exited (o : Int → Option Str) (s : SessionState) :
    (executeKill o s).1.exited = s.exited := by
  rcases hsp : selectedPort s with _ | p <;> simp [executeKill, hsp]

/-- Dispatch lemma: the terminate-session chord. -/
theorem hk_chord_exit (o : Int → Option Str) (f : List PortEntry)
    (s : SessionState) (k : Key) (h1 : k.ctrl = true) (h2 : k.input = ['c']) :
    handleKey o f s k = ({ s with exited := true }, []) := by
  unfold handleKey
  rw [if_pos ⟨h1, h2⟩]

/-- Dispatch lemma: the direct-kill chord is handled before help, confirm
and mode logic. -/
theorem hk_chord_kill (o : Int → Option Str) (f : List PortEntry)
    (s : SessionState) (k : Key) (h1 : k.ctrl = true) (h2 : k.input = ['k']) :
    handleKey o f s k = executeKill o s := by
  unfold handleKey
  rw [if_neg (by rintro ⟨_, hc⟩; rw [h2] at hc; exact absurd hc (by decide)),
    if_pos ⟨h1, h2⟩]

/-- Dispatch lemma: with help closed and a confirmation pending, every
non-chord keystroke reaches the confirmation-dialog branch. -/
theorem hk_confirm (o : Int → Option Str) (f : List PortEntry)
    (s : SessionState) (k : Key) (hh : s.showHelp = false)
    (hc : s.confirmKill = true)
    (n1 : ¬(k.ctrl = true ∧ k.input = ['c']))
    (n2 : ¬(k.ctrl = true ∧ k.input = ['k'])) :
    handleKey o f s k =
      if k.input = ['y'] then
        (({ (executeKill o s).1 with confirmKill := false }), (executeKill o s).2)
      else if k.escape = true ∨ k.input = ['n'] then
        ({ s with confirmKill := false }, [])
      else (s, []) := by
  unfold handleKey
  rw [if_neg n1, if_neg n2,
    if_neg (by rintro ⟨_, _, hcf⟩; rw [hc] at hcf; exact absurd hcf (by decide)),
    if_neg (by simp [hh]), if_pos hc]

/-- Dispatch lemma: with help closed, no confirmation pending and a
non-`?` non-chord keystroke, navigate mode reaches its own bindings. -/
theorem hk_nav (o : Int → Option Str) (f : List PortEntry)
    (s : SessionState) (k : Key) (hh : s.showHelp = false)
    (hcf : s.confirmKill = false) (hm : s.mode = AppMode.navigate)
    (n1 : ¬(k.ctrl = true ∧ k.input = ['c']))
    (n2 : ¬(k.ctrl = true ∧ k.input = ['k']))
    (nq : k.input ≠ ['?']) :
    handleKey o f s k =
      if k.upArrow = true ∨ k.input = ['k'] then (moveUp s, [])
      else if k.downArrow = true ∨ k.input = ['j'] then (moveDown s, [])
      else if k.input = ['/'] then ({ s with mode := AppMode.search }, [])
      else if k.ret = true then
        (if (selectedPort s).isSome then { s with confirmKill := true } else s, [])
      else if k.input = ['r'] ∨ k.input = ['R'] then ({ s with ports := f }, [])
      else if k.escape = true then
        (if s.searchQuery ≠ [] then { s with searchQuery := [] } else s, [])
      else if k.input = ['q'] then ({ s with exited := true }, [])
      else (s, []) := by
  unfold handleKey
  rw [if_neg n1, if_neg n2, if_neg (by rintro ⟨hq, _, _⟩; exact nq hq),
    if_neg (by simp [hh]), if_neg (by simp [hcf]), if_pos hm]

/-- Dispatch lemma: with help closed, no confirmation pending and a
non-chord keystroke, search mode reaches its own bindings. -/
theorem hk_search (o : Int → Option Str) (f : List PortEntry)
    (s : SessionState) (k : Key) (hh : s.showHelp = false)
    (hcf : s.confirmKill = false) (hm : s.mode = AppMode.search)
    (n1 : ¬(k.ctrl = true ∧ k.input = ['c']))
    (n2 : ¬(k.ctrl = true ∧ k.input = ['k'])) :
    handleKey o f s k =
      if k.escape = true then ({ s with searchQuery := [], mode := AppMode.navigate }, [])
      else if k.backspace = true ∨ k.del = true then
        ({ s with searchQuery := s.searchQuery.dropLast }, [])
      else if k.upArrow = true then (moveUp s, [])
      else if k.downArrow = true then (moveDown s, [])
      else if k.ret = true then ({ s with mode := AppMode.navigate }, [])
      else if k.ctrl = true ∨ k.meta = true then (s, [])
      else if k.input ≠ [] then ({ s with searchQuery := s.searchQuery ++ k.input }, [])
      else (s, []) := by
  unfold handleKey
  rw [if_neg n1, if_neg n2,
    if_neg (by rintro ⟨_, hmn, _⟩; rw [hm] at hmn; exact absurd hmn (by decide)),
    if_neg (by simp [hh]), if_neg (by simp [hcf]),
    if_neg (by rw [hm]; exact (by decide : AppMode.search ≠ AppMode.navigate))]

set_option maxHeartbeats 1000000 in
/-- One keystroke preserves the confirm/help exclusion: the help toggle
requires no pending confirmation, and the confirmation flag is only raised
from the navigate branch, which is unreachable while help is open. -/
theorem handleKey_mutex (o : Int → Option Str) (f : List PortEntry)
    (s : SessionState) (k : Key)
    (h : ¬(s.confirmKill = true ∧ s.showHelp = true)) :
    ¬((handleKey o f s k).1.confirmKill = true ∧
      (handleKey o f s k).1.showHelp = true) := by
  by_cases hc1 : k.ctrl = true ∧ k.input = ['c']
  · rw [hk_chord_exit o f s k hc1.1 hc1.2]
    rintro ⟨h1, h2⟩
    exact h ⟨h1, h2⟩
  by_cases hc2 : k.ctrl = true ∧ k.input = ['k']
  · rw [hk_chord_kill o f s k hc2.1 hc2.2]
    rintro ⟨h1, h2⟩
    rw [executeKill_confirmKill] at h1
    rw [executeKill_showHelp] at h2
    exact h ⟨h1, h2⟩
  by_cases hq : k.input = ['?'] ∧ s.mode = AppMode.navigate ∧ s.confirmKill = false
  · unfold handleKey
    rw [if_neg hc1, if_neg hc2, if_pos hq]
    rintro ⟨h1, _⟩
    have h1' : s.confirmKill = true := h1
    rw [hq.2.2] at h1'
    exact absurd h1' (by decide)
  by_cases hsh : s.showHelp = true
  · unfold handleKey
    rw [if_neg hc1, if_neg hc2, if_neg hq, if_pos hsh]
    rintro ⟨_, h2⟩
    have h2' : (false : Bool) = true := h2
    exact absurd h2' (by decide)
  have hh : s.showHelp = false := by simpa using hsh
  by_cases hck : s.confirmKill = true
  · rw [hk_confirm o f s k hh hck hc1 hc2]
    split_ifs with hy hesc
    · rintro ⟨h1, _⟩
      exact h1.elim
    · rintro ⟨h1, _⟩
      exact h1.elim
    · rintro ⟨_, h2⟩
      exact absurd h2 (by simp [hh])
  have hcf : s.confirmKill = false := by simpa using hck
  rcases hm : s.mode with _ | _
  · have nq : k.input ≠ ['?'] := fun hqi => hq ⟨hqi, hm, hcf⟩
    rw [hk_nav o f s k hh hcf hm hc1 hc2 nq]
    split_ifs <;> rintro ⟨h1, h2⟩ <;>
      first
        | exact absurd (show s.showHelp = true from h2) (by simp [hh])
        | exact absurd (show s.confirmKill = true from h1) (by simp [hcf])
  · rw [hk_search o f s k hh hcf hm hc1 hc2]
    split_ifs <;> rintro ⟨h1, h2⟩ <;>
      first
        | exact absurd (show s.showHelp = true from h2) (by simp [hh])
        | exact absurd (show s.confirmKill = true from h1) (by simp [hcf])

theorem stepKey_mutex (o : Int → Option Str) (f : List PortEntry)
    (s : SessionState) (k : Key)
    (h : ¬(s.confirmKill = true ∧ s.showHelp = true)) :
    ¬((stepKey o f s k).1.confirmKill = true ∧
      (stepKey o f s k).1.showHelp = true) := by
  simpa [stepKey] using handleKey_mutex o f s k h

/-! ## Claim C3 -/

/-- C3: in every session state reachable from an initial state by
keystrokes and refresh/timer events, `confirmKill` and `showHelp` are
never both true. -/
theorem confirm_help_mutex (s : SessionState) (h : Reachable s) :
    ¬(s.confirmKill = true ∧ s.showHelp = true) := by
  induction h with
  | init fetched => rintro ⟨hc, _⟩; exact absurd hc (by simp [initState, normalizeState])
  | key h o fetched k ih => exact stepKey_mutex _ _ _ _ ih
  | refresh h fetched ih => simpa [stepRefresh] using ih
  | killRefresh h fetched ih => simpa [stepKillRefresh] using ih
  | msgTimeout h ih => simpa [stepMsgTimeout] using ih

/-- Witness for `confirm_help_mutex` at a concrete reachable state, the
initial state of an empty snapshot. -/
theorem confirm_help_mutex_witness :
    Reachable (initState []) ∧
      ¬((initState []).confirmKill = true ∧ (initState []).showHelp = true) :=
  ⟨Reachable.init [], confirm_help_mutex (initState []) (Reachable.init [])⟩

/-! ## Concrete keystrokes -/

/-- A plain printable keystroke: literal character, no modifier or special
flag. -/
def keyChar (c : Char) : Key :=
  ⟨[c], false, false, false, false, false, false, false, false⟩

/-- The Escape keystroke. -/
def keyEsc : Key := ⟨[], false, false, true, false, false, false, false, false⟩

/-- The Up-arrow keystroke. -/
def keyUpA : Key := ⟨[], false, false, false, false, true, false, false, false⟩

/-- The Down-arrow keystroke. -/
def keyDownA : Key := ⟨[], false, false, false, false, false, true, false, false⟩

/-- A Ctrl-chord keystroke carrying the literal character `c`. -/
def keyCtrl (c : Char) : Key :=
  ⟨[c], true, false, false, false, false, false, false, false⟩

/-- The Enter keystroke. -/
def keyEnter : Key := ⟨[], false, false, false, true, false, false, false, false⟩

/-! ## Claim C2 -/

/-- C2: with a confirmation pending (and help closed, per the session
invariant, and the selection already re-clamped, per the data-model
invariant): `y` executes the kill and then clears `confirmKill`; `n` or
Escape clears `confirmKill` with no termination call issued and the
feedback untouched; and any other keystroke — apart from the two global
chords, dispatched earlier — changes nothing at all: no fallthrough to
navigate or search bindings. -/
theorem confirm_dialog_keys (o : Int → Option Str) (f : List PortEntry)
    (s : SessionState) (hc : s.confirmKill = true) (hh : s.showHelp = false)
    (hn : s.selectedIndex = clampedIndex s) :
    (stepKey o f s (keyChar 'y') =
        (normalizeState { (executeKill o s).1 with confirmKill := false },
         (executeKill o s).2)) ∧
    (stepKey o f s (keyChar 'n') = ({ s with confirmKill := false }, [])) ∧
    (stepKey o f s keyEsc = ({ s with confirmKill := false }, [])) ∧
    (∀ k : Key, ¬(k.ctrl = true ∧ k.input = ['c']) →
      ¬(k.ctrl = true ∧ k.input = ['k']) →
      k.input ≠ ['y'] → k.input ≠ ['n'] → k.escape = false →
      stepKey o f s k = (s, [])) := by
  have hnc : normalizeState ({ s with confirmKill := false }) =
      ({ s with confirmKill := false } : SessionState) :=
    normalizeState_eq_self (s := { s with confirmKill := false }) hn
  refine ⟨?_, ?_, ?_, ?_⟩
  · rw [stepKey, hk_confirm o f s (keyChar 'y') hh hc
      (by rintro ⟨_, hx⟩; exact absurd hx (by decide))
      (by rintro ⟨_, hx⟩; exact absurd hx (by decide))]
    rw [if_pos (by decide : (keyChar 'y').input = ['y'])]
  · rw [stepKey, hk_confirm o f s (keyChar 'n') hh hc
      (by rintro ⟨_, hx⟩; exact absurd hx (by decide))
      (by rintro ⟨_, hx⟩; exact absurd hx (by decide))]
    rw [if_neg (by decide : ¬(keyChar 'n').input = ['y']),
      if_pos (by decide : (keyChar 'n').escape = true ∨ (keyChar 'n').input = ['n'])]
    rw [hnc]
  · rw [stepKey, hk_confirm o f s keyEsc hh hc
      (by rintro ⟨_, hx⟩; exact absurd hx (by decide))
      (by rintro ⟨_, hx⟩; exact absurd hx (by decide))]
    rw [if_neg (by decide : ¬keyEsc.input = ['y']),
      if_pos (by decide : keyEsc.escape = true ∨ keyEsc.input = ['n'])]
    rw [hnc]
  · intro k n1 n2 ny nn nesc
    rw [stepKey, hk_confirm o f s k hh hc n1 n2]
    rw [if_neg ny,
      if_neg (fun hx => hx.elim (fun hx1 => absurd hx1 (by simp [nesc])) nn)]
    show (normalizeState s, ([] : List Int)) = (s, [])
    rw [normalizeState_eq_self hn]

/-- A concrete confirm-pending session state: one entity, selection 0. -/
def s2w : SessionState :=
  { ports := [⟨3000, "node".toList, "42".toList, "alice".toList, "127.0.0.1".toList⟩]
    selectedIndex := 0, searchQuery := [], killMessage := none
    mode := AppMode.navigate, showHelp := false, confirmKill := true
    pendingKillRefresh := false, exited := false }

/-- Witness for `confirm_dialog_keys`: at the concrete confirm-pending
state, `n` clears the confirmation with no termination call and no
feedback. -/
theorem confirm_dialog_keys_witness :
    (s2w.confirmKill = true ∧ s2w.showHelp = false ∧
      s2w.selectedIndex = clampedIndex s2w) ∧
      stepKey (fun _ => none) [] s2w (keyChar 'n') = ({ s2w with confirmKill := false }, []) :=
  ⟨⟨rfl, rfl, by decide⟩,
   (confirm_dialog_keys (fun _ => none) [] s2w rfl rfl (by decide)).2.1⟩

/-! ## Claim C10 -/

/-- C10: with a confirmation pending and an entity selected (and the
selection already re-clamped, per the data-model invariant), the
direct-kill chord Ctrl+K executes the kill — feedback is recorded and the
post-kill refresh is (re)scheduled, with the termination calls of
`killPort` issued — while `confirmKill` stays true (the prompt remains
open) and mode, query, help visibility, the entity list, the selection and
the exit flag are all unchanged. -/
theorem direct_kill_frame (o : Int → Option Str) (f : List PortEntry)
    (s : SessionState) (p : PortEntry) (hc : s.confirmKill = true)
    (hp : selectedPort s = some p) (hn : s.selectedIndex = clampedIndex s) :
    (stepKey o f s (keyCtrl 'k')).1.confirmKill = true ∧
    (stepKey o f s (keyCtrl 'k')).1.mode = s.mode ∧
    (stepKey o f s (keyCtrl 'k')).1.searchQuery = s.searchQuery ∧
    (stepKey o f s (keyCtrl 'k')).1.showHelp = s.showHelp ∧
    (stepKey o f s (keyCtrl 'k')).1.ports = s.ports ∧
    (stepKey o f s (keyCtrl 'k')).1.selectedIndex = s.selectedIndex ∧
    (stepKey o f s (keyCtrl 'k')).1.exited = s.exited ∧
    (stepKey o f s (keyCtrl 'k')).1.killMessage = some (killMsgOf o p) ∧
    (stepKey o f s (keyCtrl 'k')).1.pendingKillRefresh = true ∧
    (stepKey o f s (keyCtrl 'k')).2 = (killPort o p.pid).2 := by
  have hk : handleKey o f s (keyCtrl 'k') = executeKill o s :=
    hk_chord_kill o f s (keyCtrl 'k') rfl rfl
  have hsel : (stepKey o f s (keyCtrl 'k')).1.selectedIndex = s.selectedIndex := by
    rw [stepKey, hk]
    show clampedIndex (executeKill o s).1 = s.selectedIndex
    rcases hsp : selectedPort s with _ | q
    · rw [hsp] at hp; exact absurd hp (by simp)
    · simp only [executeKill, hsp]
      show clampedIndex s = s.selectedIndex
      exact hn.symm
  refine ⟨?_, ?_, ?_, ?_, ?_, hsel, ?_, ?_, ?_, ?_⟩ <;>
    simp only [stepKey, hk, normalizeState_confirmKill, normalizeState_mode,
      normalizeState_searchQuery, normalizeState_showHelp, normalizeState_ports,
      normalizeState_killMessage, normalizeState_pendingKillRefresh,
      normalizeState_exited, executeKill, hp, hc]

/-- A concrete confirm-pending state with a selected entity, for the
direct-kill witness. -/
def s10w : SessionState :=
  { ports := [⟨8080, "nginx".toList, "7".toList, "root".toList, "0.0.0.0".toList⟩]
    selectedIndex := 0, searchQuery := [], killMessage := none
    mode := AppMode.navigate, showHelp := false, confirmKill := true
    pendingKillRefresh := false, exited := false }

/-- The entity selected in `s10w`. -/
def p10w : PortEntry := ⟨8080, "nginx".toList, "7".toList, "root".toList, "0.0.0.0".toList⟩

/-- Witness for `direct_kill_frame` at the concrete state `s10w` with a
succeeding shell: Ctrl+K kills pid 7, records success feedback, schedules
the refresh, and leaves the confirmation prompt open. -/
theorem direct_kill_frame_witness :
    (s10w.confirmKill = true ∧ selectedPort s10w = some p10w ∧
      s10w.selectedIndex = clampedIndex s10w) ∧
    ((stepKey (fun _ => none) [] s10w (keyCtrl 'k')).1.confirmKill = true ∧
      (stepKey (fun _ => none) [] s10w (keyCtrl 'k')).1.mode = s10w.mode ∧
      (stepKey (fun _ => none) [] s10w (keyCtrl 'k')).1.searchQuery = s10w.searchQuery ∧
      (stepKey (fun _ => none) [] s10w (keyCtrl 'k')).1.showHelp = s10w.showHelp ∧
      (stepKey (fun _ => none) [] s10w (keyCtrl 'k')).1.ports = s10w.ports ∧
      (stepKey (fun _ => none) [] s10w (keyCtrl 'k')).1.selectedIndex = s10w.selectedIndex ∧
      (stepKey (fun _ => none) [] s10w (keyCtrl 'k')).1.exited = s10w.exited ∧
      (stepKey (fun _ => none) [] s10w (keyCtrl 'k')).1.killMessage =
        some (killMsgOf (fun _ => none) p10w) ∧
      (stepKey (fun _ => none) [] s10w (keyCtrl 'k')).1.pendingKillRefresh = true ∧
      (stepKey (fun _ => none) [] s10w (keyCtrl 'k')).2 =
        (killPort (fun _ => none) p10w.pid).2) :=
  ⟨⟨rfl, by decide, by decide⟩,
   direct_kill_frame (fun _ => none) [] s10w p10w rfl (by decide) (by decide)⟩

/-! ## Claim C7 -/

theorem normalizeState_moveUp (s : SessionState) :
    normalizeState (moveUp s) = moveUp s := by
  apply normalizeState_eq_self
  show clampIndex (s.selectedIndex - 1) (flen s - 1) =
    clampIndex (clampIndex (s.selectedIndex - 1) (flen s - 1)) (flen s - 1)
  exact (clampIndex_idem _ _).symm

theorem normalizeState_moveDown (s : SessionState) :
    normalizeState (moveDown s) = moveDown s := by
  apply normalizeState_eq_self
  show clampIndex (s.selectedIndex + 1) (flen s - 1) =
    clampIndex (clampIndex (s.selectedIndex + 1) (flen s - 1)) (flen s - 1)
  exact (clampIndex_idem _ _).symm

/-- C7 (amended): Up and Down arrows move the selection by one, clamped to
`[0, filteredLength-1]`, in *both* modes; the vi keys `k`/`j` move it only
in Navigate mode — in Search mode they are printable characters appended
to the query — and on an empty filtered list the movement operations leave
the state unchanged. -/
theorem move_selection_amended (o : Int → Option Str) (f : List PortEntry)
    (s : SessionState) (hh : s.showHelp = false) (hcf : s.confirmKill = false)
    (hn : s.selectedIndex = clampedIndex s) :
    (s.mode = AppMode.navigate →
      stepKey o f s keyUpA = (moveUp s, []) ∧
      stepKey o f s (keyChar 'k') = (moveUp s, []) ∧
      stepKey o f s keyDownA = (moveDown s, []) ∧
      stepKey o f s (keyChar 'j') = (moveDown s, [])) ∧
    (s.mode = AppMode.search →
      stepKey o f s keyUpA = (moveUp s, []) ∧
      stepKey o f s keyDownA = (moveDown s, []) ∧
      stepKey o f s (keyChar 'k') =
        (normalizeState { s with searchQuery := s.searchQuery ++ ['k'] }, []) ∧
      stepKey o f s (keyChar 'j') =
        (normalizeState { s with searchQuery := s.searchQuery ++ ['j'] }, [])) ∧
    (moveUp s).selectedIndex = clampIndex (s.selectedIndex - 1) (flen s - 1) ∧
    (moveDown s).selectedIndex = clampIndex (s.selectedIndex + 1) (flen s - 1) ∧
    (flen s = 0 → moveUp s = s ∧ moveDown s = s) := by
  refine ⟨?_, ?_, rfl, rfl, ?_⟩
  · intro hm
    refine ⟨?_, ?_, ?_, ?_⟩
    · rw [stepKey, hk_nav o f s keyUpA hh hcf hm
        (by rintro ⟨hx, _⟩; exact absurd hx (by decide))
        (by rintro ⟨hx, _⟩; exact absurd hx (by decide)) (by decide)]
      rw [if_pos (by decide : keyUpA.upArrow = true ∨ keyUpA.input = ['k'])]
      show (normalizeState (moveUp s), ([] : List Int)) = (moveUp s, [])
      rw [normalizeState_moveUp]
    · rw [stepKey, hk_nav o f s (keyChar 'k') hh hcf hm
        (by rintro ⟨hx, _⟩; exact absurd hx (by decide))
        (by rintro ⟨hx, _⟩; exact absurd hx (by decide)) (by decide)]
      rw [if_pos (by decide : (keyChar 'k').upArrow = true ∨ (keyChar 'k').input = ['k'])]
      show (normalizeState (moveUp s), ([] : List Int)) = (moveUp s, [])
      rw [normalizeState_moveUp]
    · rw [stepKey, hk_nav o f s keyDownA hh hcf hm
        (by rintro ⟨hx, _⟩; exact absurd hx (by decide))
        (by rintro ⟨hx, _⟩; exact absurd hx (by decide)) (by decide)]
      rw [if_neg (by decide : ¬(keyDownA.upArrow = true ∨ keyDownA.input = ['k'])),
        if_pos (by decide : keyDownA.downArrow = true ∨ keyDownA.input = ['j'])]
      show (normalizeState (moveDown s), ([] : List Int)) = (moveDown s, [])
      rw [normalizeState_moveDown]
    · rw [stepKey, hk_nav o f s (keyChar 'j') hh hcf hm
        (by rintro ⟨hx, _⟩; exact absurd hx (by decide))
        (by rintro ⟨hx, _⟩; exact absurd hx (by decide)) (by decide)]
      rw [if_neg (by decide : ¬((keyChar 'j').upArrow = true ∨ (keyChar 'j').input = ['k'])),
        if_pos (by decide : (keyChar 'j').downArrow = true ∨ (keyChar 'j').input = ['j'])]
      show (normalizeState (moveDown s), ([] : List Int)) = (moveDown s, [])
      rw [normalizeState_moveDown]
  · intro hm
    refine ⟨?_, ?_, ?_, ?_⟩
    · rw [stepKey, hk_search o f s keyUpA hh hcf hm
        (by rintro ⟨hx, _⟩; exact absurd hx (by decide))
        (by rintro ⟨hx, _⟩; exact absurd hx (by decide))]
      rw [if_neg (by decide : ¬keyUpA.escape = true),
        if_neg (by decide : ¬(keyUpA.backspace = true ∨ keyUpA.del = true)),
        if_pos (by decide : keyUpA.upArrow = true)]
      show (normalizeState (moveUp s), ([] : List Int)) = (moveUp s, [])
      rw [normalizeState_moveUp]
    · rw [stepKey, hk_search o f s keyDownA hh hcf hm
        (by rintro ⟨hx, _⟩; exact absurd hx (by decide))
        (by rintro ⟨hx, _⟩; exact absurd hx (by decide))]
      rw [if_neg (by decide : ¬keyDownA.escape = true),
        if_neg (by decide : ¬(keyDownA.backspace = true ∨ keyDownA.del = true)),
        if_neg (by decide : ¬keyDownA.upArrow = true),
        if_pos (by decide : keyDownA.downArrow = true)]
      show (normalizeState (moveDown s), ([] : List Int)) = (moveDown s, [])
      rw [normalizeState_moveDown]
    · rw [stepKey, hk_search o f s (keyChar 'k') hh hcf hm
        (by rintro ⟨hx, _⟩; exact absurd hx (by decide))
        (by rintro ⟨hx, _⟩; exact absurd hx (by decide))]
      rw [if_neg (by decide : ¬(keyChar 'k').escape = true),
        if_neg (by decide : ¬((keyChar 'k').backspace = true ∨ (keyChar 'k').del = true)),
        if_neg (by decide : ¬(keyChar 'k').upArrow = true),
        if_neg (by decide : ¬(keyChar 'k').downArrow = true),
        if_neg (by decide : ¬(keyChar 'k').ret = true),
        if_neg (by decide : ¬((keyChar 'k').ctrl = true ∨ (keyChar 'k').meta = true)),
        if_pos (by decide : (keyChar 'k').input ≠ [])]
      rfl
    · rw [stepKey, hk_search o f s (keyChar 'j') hh hcf hm
        (by rintro ⟨hx, _⟩; exact absurd hx (by decide))
        (by rintro ⟨hx, _⟩; exact absurd hx (by decide))]
      rw [if_neg (by decide : ¬(keyChar 'j').escape = true),
        if_neg (by decide : ¬((keyChar 'j').backspace = true ∨ (keyChar 'j').del = true)),
        if_neg (by decide : ¬(keyChar 'j').upArrow = true),
        if_neg (by decide : ¬(keyChar 'j').downArrow = true),
        if_neg (by decide : ¬(keyChar 'j').ret = true),
        if_neg (by decide : ¬((keyChar 'j').ctrl = true ∨ (keyChar 'j').meta = true)),
        if_pos (by decide : (keyChar 'j').input ≠ [])]
      rfl
  · intro h0
    have hsi : s.selectedIndex = 0 := by
      rw [hn]
      unfold clampedIndex clampIndex
      rw [h0]
      omega
    have hvalUp : clampIndex (s.selectedIndex - 1) (flen s - 1) = s.selectedIndex := by
      rw [hsi, h0]
      unfold clampIndex
      omega
    have hvalDown : clampIndex (s.selectedIndex + 1) (flen s - 1) = s.selectedIndex := by
      rw [hsi, h0]
      unfold clampIndex
      omega
    constructor
    · show { s with selectedIndex := clampIndex (s.selectedIndex - 1) (flen s - 1) } = s
      rw [hvalUp]
    · show { s with selectedIndex := clampIndex (s.selectedIndex + 1) (flen s - 1) } = s
      rw [hvalDown]

/-- Two entities whose every field contains the letter `k`, so the filter
keeps both under the query `k`. -/
def e71 : PortEntry := ⟨1, "kafka".toList, "10".toList, "alice".toList, "127.0.0.1".toList⟩

/-- See `e71`. -/
def e72 : PortEntry := ⟨2, "kiwi".toList, "11".toList, "alice".toList, "127.0.0.1".toList⟩

/-- A Search-mode session state with the selection on the second row. -/
def s7cx : SessionState :=
  { ports := [e71, e72], selectedIndex := 1, searchQuery := [], killMessage := none
    mode := AppMode.search, showHelp := false, confirmKill := false
    pendingKillRefresh := false, exited := false }

/-- C7 counterexample: the claim says pressing `k` in Search mode moves
the selection up by one (here from 1 to the clamped value 0). In the code
`k` in Search mode is a printable character: at this concrete state the
keystroke leaves the selection at 1 and appends `k` to the query instead —
so the claim, as stated for both modes, is false. -/
theorem move_selection_cx :
    (stepKey (fun _ => none) [] s7cx (keyChar 'k')).1.selectedIndex = 1 ∧
    (stepKey (fun _ => none) [] s7cx (keyChar 'k')).1.searchQuery = ['k'] ∧
    clampIndex (s7cx.selectedIndex - 1) (flen s7cx - 1) = 0 :=
  ⟨by decide, by decide, by decide⟩

/-- A Navigate-mode session state with the selection on the second row. -/
def s7w : SessionState :=
  { ports := [e71, e72], selectedIndex := 1, searchQuery := [], killMessage := none
    mode := AppMode.navigate, showHelp := false, confirmKill := false
    pendingKillRefresh := false, exited := false }

/-- Witness for `move_selection_amended`: at the concrete Navigate-mode
state, Up moves the selection as the clamp formula prescribes. -/
theorem move_selection_witness :
    (s7w.showHelp = false ∧ s7w.confirmKill = false ∧
      s7w.selectedIndex = clampedIndex s7w ∧ s7w.mode = AppMode.navigate) ∧
      stepKey (fun _ => none) [] s7w keyUpA = (moveUp s7w, []) :=
  ⟨⟨rfl, rfl, by decide, rfl⟩,
   ((move_selection_amended (fun _ => none) [] s7w rfl rfl (by decide)).1 rfl).1⟩
